import Mathlib

/-!
Verification of the tycho consensus core against its specification.

Shallow embedding of the Rust sources:
* `src/consensus/src/models/point.rs` (Point, Digest, Signature, Link, well-formedness),
* `src/consensus/src/dag/dag_location.rs` (InclusionState, Signable),
* `src/consensus/src/intercom/dependency/downloader.rs` (Limiter, DownloadTask),
* `src/consensus/src/engine/impl_.rs` (committer run output ordering),
* `src/consensus/src/engine/mempool_config.rs` (overlay id hash input).

External cryptography (SHA-256 over bincode, Ed25519, BLAKE3) is not part of the
repository; hashes are modelled as an abstract deterministic function passed as an
argument, and Ed25519 signatures are modelled symbolically (a signature is a term
recording the signer's public key and the signed digest, and verification succeeds
exactly on a matching pair, which is the idealized contract of the scheme).

Machine integers: `u32`/`u64`/`usize` are modelled as `Nat` (the code's checked
arithmetic panics on under/overflow, so no wrap-around behaviour is observable);
`u8` counters that the code bumps with `saturating_add` are modelled with an
explicit saturation at 255.
-/

namespace Tycho

/-- 32-byte public key identifier (`tycho_network::PeerId`), abstracted. -/
abbrev PeerId := Nat

/-- Consensus round number (`Round(pub u32)` in `models/point.rs`). -/
abbrev Round := Nat

/-- Unix time in milliseconds (`UnixTime(u64)` in `models/point.rs`). -/
abbrev UnixTime := Nat

/-- 32-byte SHA-256 digest of a serialized point body, abstracted to a value. -/
abbrev Digest := Nat

/-- Ed25519 key pair (`everscale_crypto::ed25519::KeyPair`); only the public key
is observable, and `PeerId::from(public_key)` is the identity in this model. -/
structure KeyPair where
  publicKey : PeerId
deriving DecidableEq, Repr

/-- Ed25519 signature over a digest, modelled symbolically: the term records the
signer's public key and the digest that was signed (`Signature::new` in
`models/point.rs` signs the raw digest bytes with the local key pair). -/
inductive Signature where
  | sig (signer : PeerId) (digest : Digest)
deriving DecidableEq, Repr

/-- Signature verification (`Signature::verifies` in `models/point.rs`): in the
symbolic model of Ed25519 a signature verifies for a signer and digest exactly
when it was produced by that signer's key pair over that digest. -/
def Signature.verifies (s : Signature) (signer : PeerId) (digest : Digest) : Bool :=
  match s with
  | .sig pk d => pk == signer && d == digest

/-- Location `(round, author)` from `models/point.rs`. -/
structure Location where
  round : Round
  author : PeerId
deriving DecidableEq, Repr

/-- PointId `(location, digest)` from `models/point.rs`. -/
structure PointId where
  location : Location
  digest : Digest
deriving DecidableEq, Repr

/-- A hop of an anchor link (`Through` in `models/point.rs`). -/
inductive Through where
  | witness (peer : PeerId)
  | includes (peer : PeerId)
deriving DecidableEq, Repr

/-- Anchor link (`Link` in `models/point.rs`). -/
inductive Link where
  | toSelf
  | direct (path : Through)
  | indirect (target : PointId) (path : Through)
deriving DecidableEq, Repr

/-- Author's previous-round point with `>= 2F` other signers' evidence
(`PrevPoint` in `models/point.rs`; the `BTreeMap` is an association list here). -/
structure PrevPoint where
  digest : Digest
  evidence : List (PeerId × Signature)
deriving DecidableEq, Repr

/-- Body of a point (`PointBody` in `models/point.rs`); `BTreeMap`s become
association lists and `Vec<Bytes>` becomes a list of abstract payload items. -/
structure PointBody where
  location : Location
  time : UnixTime
  payload : List Nat
  proof : Option PrevPoint
  includes : List (PeerId × Digest)
  witness : List (PeerId × Digest)
  anchor_trigger : Link
  anchor_proof : Link
  anchor_time : UnixTime
deriving DecidableEq, Repr

/-- Field accessor tag (`LinkField` in `models/point.rs`). -/
inductive LinkField where
  | trigger
  | proof
deriving DecidableEq, Repr

/-- A signed point (`Point` in `models/point.rs`). -/
structure Point where
  body : PointBody
  digest : Digest
  signature : Signature
deriving DecidableEq, Repr

/-- Association-list lookup standing in for `BTreeMap::get`. -/
def alistGet {α : Type} (m : List (PeerId × α)) (k : PeerId) : Option α :=
  match m with
  | [] => none
  | (k', v) :: rest => if k' = k then some v else alistGet rest k

/-- Association-list key membership standing in for `BTreeMap::contains_key`. -/
def alistContains {α : Type} (m : List (PeerId × α)) (k : PeerId) : Bool :=
  (alistGet m k).isSome

/-- `Point::new` from `models/point.rs`: hash the body, sign the digest with the
local key pair.  The Rust code also asserts that `point_body.location.author`
equals the key pair's public key; that precondition appears as a hypothesis of
the integrity theorem rather than in the constructor. -/
def Point.new (hashBody : PointBody → Digest) (localKeypair : KeyPair)
    (pointBody : PointBody) : Point :=
  let digest := hashBody pointBody
  { body := pointBody
    digest := digest
    signature := Signature.sig localKeypair.publicKey digest }

/-- `Point::id` from `models/point.rs`. -/
def Point.id (p : Point) : PointId :=
  { location := p.body.location, digest := p.digest }

/-- `Point::is_integrity_ok` from `models/point.rs`: the signature verifies over
the digest for the body's author, and the digest is the hash of the body. -/
def Point.is_integrity_ok (hashBody : PointBody → Digest) (p : Point) : Bool :=
  p.signature.verifies p.body.location.author p.digest
    && (p.digest == hashBody p.body)

/-- `Point::anchor_link` from `models/point.rs`. -/
def Point.anchor_link (p : Point) (f : LinkField) : Link :=
  match f with
  | .trigger => p.body.anchor_trigger
  | .proof => p.body.anchor_proof

/-- `Point::anchor_round` from `models/point.rs`.  `Round::prev` is checked
subtraction in Rust (panics at 0); here it is truncated `Nat` subtraction, which
agrees with the code on every input where the code does not panic. -/
def Point.anchor_round (p : Point) (f : LinkField) : Round :=
  match p.anchor_link f with
  | .toSelf => p.body.location.round
  | .direct (.includes _) => p.body.location.round - 1
  | .direct (.witness _) => p.body.location.round - 2
  | .indirect target _ => target.location.round

/-- `Point::is_link_well_formed` from `models/point.rs`. -/
def Point.is_link_well_formed (p : Point) (f : LinkField) : Bool :=
  match p.anchor_link f with
  | .toSelf => true
  | .direct (.includes peer) => alistContains p.body.includes peer
  | .direct (.witness peer) => alistContains p.body.witness peer
  | .indirect target (.includes peer) =>
      alistContains p.body.includes peer
        && decide (target.location.round + 1 < p.body.location.round)
  | .indirect target (.witness peer) =>
      alistContains p.body.witness peer
        && decide (target.location.round + 2 < p.body.location.round)

/-- The final round comparison of `Point::is_well_formed` in `models/point.rs`:
Rust matches `(x, GENESIS_ROUND)` first, then `(GENESIS_ROUND, y)`, then the
generic arm requiring distinct rounds above genesis. -/
def anchorRoundsOk (genesis : Round) (x y : Round) : Bool :=
  if y = genesis then decide (genesis ≤ x)
  else if x = genesis then decide (genesis ≤ y)
  else decide (x ≠ y) && decide (genesis < x) && decide (genesis < y)

/-- `Point::is_well_formed` from `models/point.rs`.  `MempoolConfig::GENESIS_ROUND`
is a process-wide configured constant whose definition is not under `src/`; it is
passed here as the `genesis` argument. -/
def Point.is_well_formed (genesis : Round) (p : Point) : Bool :=
  let author := p.body.location.author
  let is_time_ok := decide (p.body.anchor_time ≤ p.body.time)
  let is_special_ok :=
    if p.body.location.round = genesis then
      p.body.includes.isEmpty && p.body.witness.isEmpty
        && p.body.payload.isEmpty && p.body.proof.isNone
        && decide (p.body.anchor_proof = Link.toSelf)
        && decide (p.body.anchor_trigger = Link.toSelf)
    else if genesis < p.body.location.round then
      (decide (genesis + 1 < p.body.location.round) || p.body.witness.isEmpty)
        && !(decide (p.body.anchor_proof = Link.toSelf) && p.body.proof.isNone)
        && !(decide (p.body.anchor_trigger = Link.toSelf) && p.body.proof.isNone)
    else false
  is_time_ok && is_special_ok
    && decide (p.body.proof.map (fun pr => pr.digest) = alistGet p.body.includes author)
    && (match p.body.proof with
        | none => true
        | some pr => !alistContains pr.evidence author)
    && p.is_link_well_formed .proof
    && p.is_link_well_formed .trigger
    && anchorRoundsOk genesis (p.anchor_round .proof) (p.anchor_round .trigger)

/-- Body of the canonical genesis point as built by `CachedConfig::init` in
`engine/mempool_config.rs`: empty payload, includes and witness, no proof, both
anchor links `ToSelf`, `time` and `anchor_time` equal to the configured genesis
millis, authored by the key pair derived from the overlay id. -/
def genesisBody (genesisRound : Round) (genesisMillis : UnixTime)
    (genesisAuthor : PeerId) : PointBody :=
  { location := { round := genesisRound, author := genesisAuthor }
    time := genesisMillis
    payload := []
    proof := none
    includes := []
    witness := []
    anchor_trigger := Link.toSelf
    anchor_proof := Link.toSelf
    anchor_time := genesisMillis }

/-- The canonical genesis point (`CachedConfig::init` in
`engine/mempool_config.rs` signs the genesis body with the key pair derived from
the overlay id; that key pair's public key is the `genesisAuthor` argument). -/
def genesisPoint (hashBody : PointBody → Digest) (genesisRound : Round)
    (genesisMillis : UnixTime) (genesisAuthor : PeerId) : Point :=
  Point.new hashBody { publicKey := genesisAuthor }
    (genesisBody genesisRound genesisMillis genesisAuthor)

/-- Modelled from the spec: `ValidPoint` lives in the `models` module that is not
under `src/`; per spec section 3 it wraps a `Point` together with reachability
info that no claim inspects. -/
structure ValidPoint where
  point : Point
deriving DecidableEq, Repr

/-- Modelled from the spec: the `DagPoint` validation verdict lives in the
`models` module that is not under `src/`; per spec section 3 it is the tagged
union `lbrace Trusted(valid), Suspicious(valid), Invalid, IllFormed, NotFound
rbrace`, and `dag/dag_location.rs` matches on the `Trusted` variant. -/
inductive DagPoint where
  | trusted (valid : ValidPoint)
  | suspicious (valid : ValidPoint)
  | invalid
  | illFormed
  | notFound
deriving DecidableEq, Repr

/-- Modelled from the spec: `PointBody::sign` is not under `src/`; per the data
model (spec sections 3 and 6) a point signature is Ed25519 over the digest of
the serialized body, so signing a body with a key pair produces the symbolic
signature of that key over the body's hash. -/
def PointBody.sign (hashBody : PointBody → Digest) (b : PointBody)
    (keyPair : KeyPair) : Signature :=
  Signature.sig keyPair.publicKey (hashBody b)

/-- A made signature plus the round it was made at (`Signed` in
`dag/dag_location.rs`; the Rust field `with` is `with_` here). -/
structure Signed where
  at_ : Round
  with_ : Signature
deriving DecidableEq, Repr

instance {ε α : Type} [DecidableEq ε] [DecidableEq α] : DecidableEq (Except ε α) :=
  fun x y =>
    match x, y with
    | .error a, .error b =>
        if h : a = b then isTrue (h ▸ rfl)
        else isFalse (fun hh => h (Except.error.inj hh))
    | .error _, .ok _ => isFalse (fun hh => Except.noConfusion hh)
    | .ok _, .error _ => isFalse (fun hh => Except.noConfusion hh)
    | .ok a, .ok b =>
        if h : a = b then isTrue (h ▸ rfl)
        else isFalse (fun hh => h (Except.ok.inj hh))

/-- The signing decision slot: Rust's `OnceLock<Result<Signed, ()>>` becomes
`Option (Except Unit Signed)` (`none` = unset). -/
abbrev SignedSlot := Option (Except Unit Signed)

/-- `OnceLock::set` / the filling part of `get_or_init`: only an empty cell is
written, a filled cell is left unchanged. -/
def onceSet {α : Type} (cell : Option α) (v : α) : Option α :=
  match cell with
  | none => some v
  | some w => some w

/-- The signable state of a DAG location (`Signable` in `dag/dag_location.rs`). -/
structure Signable where
  first_completed : DagPoint
  signed : SignedSlot
deriving DecidableEq, Repr

/-- `Signable::filter` from `dag/dag_location.rs`: only a `Trusted` verdict is
signable (valid `Suspicious` included in the catch-all). -/
def Signable.filter (first_completed : DagPoint) : Option ValidPoint :=
  match first_completed with
  | .trusted valid => some valid
  | _ => none

/-- `Signable::reject` from `dag/dag_location.rs`: a one-time set of `Err(())`. -/
def Signable.reject (s : Signable) : Signable :=
  { s with signed := onceSet s.signed (Except.error ()) }

/-- `Signable::sign` from `dag/dag_location.rs`, returning the updated state and
the `this_call_signed` flag.  The inclusive time range `[lo, hi]` stands for the
Rust `RangeInclusive` argument. -/
def Signable.sign (hashBody : PointBody → Digest) (s : Signable) (at_ : Round)
    (keyPair : Option KeyPair) (lo hi : UnixTime) : Signable × Bool :=
  match Signable.filter s.first_completed, keyPair with
  | some valid, some kp =>
      if lo ≤ valid.point.body.time ∧ valid.point.body.time ≤ hi then
        match s.signed with
        | none =>
            ({ s with signed := some (Except.ok
                { at_ := at_, with_ := PointBody.sign hashBody valid.point.body kp }) },
             true)
        | some _ => (s, false)
      else if valid.point.body.time < lo then (s.reject, false)
      else (s, false)
  | _, _ => (s.reject, false)

/-- `Signable::is_completed` from `dag/dag_location.rs`. -/
def Signable.is_completed (s : Signable) : Bool :=
  s.signed.isSome

/-- Per-location inclusion state (`InclusionState` in `dag/dag_location.rs`):
Rust's `Arc<OnceLock<Signable>>` becomes `Option Signable`. -/
abbrev InclusionState := Option Signable

/-- `InclusionState::init` from `dag/dag_location.rs` (the completion hook that
`DagLocation::add_validate` installs runs this with the first completed
verdict): `get_or_init` fills only an empty cell, pre-rejecting a verdict that
is not signable. -/
def InclusionState.init (s : InclusionState) (first_completed : DagPoint) :
    InclusionState :=
  match s with
  | some sg => some sg
  | none =>
      some { first_completed := first_completed
             signed := if (Signable.filter first_completed).isNone
                       then some (Except.error ()) else none }

/-- `InclusionState::insert_own_point` from `dag/dag_location.rs`: the own point
must be signable (the code asserts this) and the state must still be empty (the
`OnceLock::set` result is asserted `Ok`); on either assertion failure the process
panics with the state unmodified, which this total model renders as returning
the state unchanged. -/
def InclusionState.insert_own_point (s : InclusionState) (my_point : DagPoint) :
    InclusionState :=
  match Signable.filter my_point with
  | none => s
  | some valid =>
      match s with
      | some sg => some sg
      | none =>
          some { first_completed := my_point
                 signed := some (Except.ok
                   { at_ := valid.point.body.location.round
                     with_ := valid.point.signature }) }

/-- The calls that can touch one location's `InclusionState`:
`DagLocation::insert_own_point`, the `InclusionState::init` hook installed by
`DagLocation::add_validate`, `Signable::sign` and `Signable::reject` (the latter
two reached through `InclusionState::signable()`). -/
inductive LocAction where
  | insertOwn (p : DagPoint)
  | initFirst (p : DagPoint)
  | signAct (at_ : Round) (keyPair : Option KeyPair) (lo hi : UnixTime)
  | rejectAct
deriving DecidableEq, Repr

/-- One call against an inclusion state.  `sign` and `reject` act on the inner
`Signable` when the cell is initialized and do nothing otherwise (an empty cell
yields no `Signable` to the caller). -/
def locStep (hashBody : PointBody → Digest) (s : InclusionState)
    (a : LocAction) : InclusionState :=
  match a with
  | .insertOwn p => s.insert_own_point p
  | .initFirst p => s.init p
  | .signAct at_ keyPair lo hi =>
      s.map (fun sg => (sg.sign hashBody at_ keyPair lo hi).1)
  | .rejectAct => s.map Signable.reject

/-- The settled signing decision of an inclusion state, if any
(`InclusionState::signed` in `dag/dag_location.rs`). -/
def signedOf (s : InclusionState) : SignedSlot :=
  match s with
  | none => none
  | some sg => sg.signed

/-- Download concurrency limiter from `intercom/dependency/downloader.rs`: the
`u16` running counter and the `BTreeMap<Round, VecDeque<Arc<Semaphore>>>` of
waiters, the latter as an association list with unique keys; each queued waiter
is represented by its semaphore's permit count (created with zero permits). -/
structure Limiter where
  running : Nat
  waiters : List (Round × List Nat)
deriving DecidableEq, Repr

/-- Largest round key of the waiter map (`BTreeMap::last_entry`). -/
def maxKeyEntry : List (Round × List Nat) → Option (Round × List Nat)
  | [] => none
  | (r, q) :: rest =>
      match maxKeyEntry rest with
      | none => some (r, q)
      | some (r', q') => if r < r' then some (r', q') else some (r, q)

/-- `waiters.entry(round).or_default().push_back(semaphore)`. -/
def pushWaiter (w : List (Round × List Nat)) (r : Round) (sem : Nat) :
    List (Round × List Nat) :=
  match w with
  | [] => [(r, [sem])]
  | (r', q) :: rest =>
      if r' = r then (r', q ++ [sem]) :: rest
      else (r', q) :: pushWaiter rest r sem

/-- Replace the queue at key `r`, removing the entry when the new queue is empty
(the `entry.remove_entry()` branch of `Limiter::exit`). -/
def setQueue (w : List (Round × List Nat)) (r : Round) (newq : List Nat) :
    List (Round × List Nat) :=
  match w with
  | [] => []
  | (r', q) :: rest =>
      if r' = r then (if newq.isEmpty then rest else (r', newq) :: rest)
      else (r', q) :: setQueue rest r newq

/-- `Limiter::enter` from `intercom/dependency/downloader.rs`: admit while
`running <= CONCURRENT_DOWNLOADS` (the code comments that the comparison cannot
be strict, so at least one extra task is always allowed); otherwise enqueue a
fresh zero-permit semaphore under the task's round and return it.
`MempoolConfig::CONCURRENT_DOWNLOADS` is not under `src/` and is the `cap`
argument. -/
def Limiter.enter (cap : Nat) (l : Limiter) (round : Round) :
    Limiter × Option Nat :=
  if l.running ≤ cap then ({ l with running := l.running + 1 }, none)
  else ({ l with waiters := pushWaiter l.waiters round 0 }, some 0)

/-- `Limiter::exit` from `intercom/dependency/downloader.rs`: wake the front
waiter of the newest round if any (adding one permit to its zero-permit
semaphore, `running` untouched), else decrement `running`.  The returned flag
says whether a waiter was woken.  The Rust panics on an empty round queue or a
`running` underflow; both are unreachable and leave the state unchanged here. -/
def Limiter.exit (l : Limiter) : Limiter × Bool :=
  match maxKeyEntry l.waiters with
  | some (r, q) =>
      match q with
      | [] => (l, false)
      | _ :: qrest => ({ l with waiters := setQueue l.waiters r qrest }, true)
  | none =>
      match l.running with
      | 0 => (l, false)
      | n + 1 => ({ l with running := n }, false)

/-- The limiter together with the number of download tasks currently executing
their body, i.e. past `Limiter::enter` (admitted at once or since woken) and not
yet through `Limiter::exit` (`Downloader::run` brackets `run_task` between the
two). -/
structure LimSystem where
  cap : Nat
  lim : Limiter
  executing : Nat
deriving DecidableEq, Repr

/-- The two limiter transitions a download task performs. -/
inductive LimEvent where
  | enterEv (round : Round)
  | exitEv
deriving DecidableEq, Repr

/-- One limiter transition: a task enters (and starts executing only when
admitted without a semaphore), or an executing task exits (waking at most one
waiter, which then starts executing).  An exit with no executing task cannot
happen in the program and is a no-op here. -/
def limStep (s : LimSystem) (e : LimEvent) : LimSystem :=
  match e with
  | .enterEv r =>
      let (l', w) := Limiter.enter s.cap s.lim r
      { s with lim := l'
               executing := if w.isNone then s.executing + 1 else s.executing }
  | .exitEv =>
      match s.executing with
      | 0 => s
      | n + 1 =>
          let (l', woke) := s.lim.exit
          { s with lim := l'
                   executing := if woke then n + 1 else n }

/-- The limiter state a fresh `Downloader` starts from (`Limiter::default()`). -/
def initLimSystem (cap : Nat) : LimSystem :=
  { cap := cap, lim := { running := 0, waiters := [] }, executing := 0 }

/-- State of a peer known to a download task (`PeerStatus` in
`intercom/dependency/downloader.rs`; `PeerState` is `Unknown | Resolved`). -/
inductive PeerState where
  | unknown
  | resolved
deriving DecidableEq, Repr

/-- Per-peer bookkeeping of a download task (`PeerStatus` in
`intercom/dependency/downloader.rs`). -/
structure PeerStatus where
  state : PeerState
  failed_queries : Nat
  is_depender : Bool
  is_in_flight : Bool
deriving DecidableEq, Repr

/-- `u8::saturating_add(1)` on the task's reliability counters. -/
def satU8succ (n : Nat) : Nat := min (n + 1) 255

/-- Modelled from the spec: `PeerCount::majority_of_others` lives in the
`models` module that is not under `src/`; the spec's termination rule counts
`majority_of_others(peer_count)` reliable answers, and the code comments call
that threshold `2F` (out of `N = 3F+1` validators, this node being the `+1`). -/
def majority_of_others (peerCount : Nat) : Nat :=
  2 * ((peerCount - 1) / 3)

/-- Result of one completed peer query as the download task sees it:
`anyhow::Result<PointByIdResponse>` plus, for a well-addressed point, the
outcome of the external `Verifier::verify` call (the `Verifier` is not under
`src/`; its verdict is data of the event). -/
inductive QueryOutcome where
  | tryLater
  | netErr
  | definedNone
  | definedSome (point : Point) (verdict : Except Bool Unit)
deriving DecidableEq, Repr

/-- `Verifier::verify` error cases: `Except.error true` is `VerifyError::BadSig`,
`Except.error false` is `VerifyError::IllFormed`, `Except.ok ()` is `Ok(())`. -/
abbrev VerifyVerdict := Except Bool Unit

/-- `DownloadResult` from `intercom/dependency/downloader.rs`. -/
inductive DownloadResultM where
  | notFound
  | verifiedR (point : Point)
  | illFormedR (point : Point)
deriving DecidableEq, Repr

/-- The mutable state of `DownloadTask` from `intercom/dependency/downloader.rs`.
`undone_peers` is the `FastHashMap` as an association list, `downloading` lists
the peers with an in-flight query (`FuturesUnordered`), `rng` feeds the
`thread_rng().next_u32()` draws of `download_random`, and `downloadPeersCfg` is
`MempoolConfig::DOWNLOAD_PEERS` (a constant not under `src/`). -/
structure DTask where
  point_id : PointId
  peer_count : Nat
  reliably_not_found : Nat
  unreliable_peers : Nat
  undone_peers : List (PeerId × PeerStatus)
  downloading : List PeerId
  attempt : Nat
  downloadPeersCfg : Nat
  rng : List Nat
deriving DecidableEq, Repr

/-- Replace a peer's status in the map (key assumed present). -/
def setPeer (m : List (PeerId × PeerStatus)) (k : PeerId) (v : PeerStatus) :
    List (PeerId × PeerStatus) :=
  match m with
  | [] => []
  | (k', v') :: rest =>
      if k' = k then (k', v) :: rest else (k', v') :: setPeer rest k v

/-- Remove a peer from the map (`FastHashMap::remove`). -/
def removePeer (m : List (PeerId × PeerStatus)) (k : PeerId) :
    List (PeerId × PeerStatus) :=
  match m with
  | [] => []
  | (k', v') :: rest =>
      if k' = k then rest else (k', v') :: removePeer rest k

/-- `DownloadTask::download_one` from `intercom/dependency/downloader.rs`: mark
the peer in flight and push its query.  The Rust panics when the peer is not in
the map or already in flight; internal call sites guarantee both, and the model
is total by leaving the state unchanged on an absent peer. -/
def DTask.download_one (s : DTask) (peer : PeerId) : DTask :=
  match alistGet s.undone_peers peer with
  | none => s
  | some st =>
      let st' := { st with is_in_flight := true }
      { s with undone_peers := setPeer s.undone_peers peer st'
               downloading := s.downloading ++ [peer] }

/-- Lexicographic comparison of the `(failed_queries, !is_depender, random)`
sort key used by `DownloadTask::download_random`. -/
def prioLe (a b : Nat × Nat × Nat) : Bool :=
  decide (a.1 < b.1)
    || (a.1 == b.1
        && (decide (a.2.1 < b.2.1) || (a.2.1 == b.2.1 && decide (a.2.2 ≤ b.2.2))))

/-- Insertion into a list sorted by `le` (stand-in for `sort_unstable_by`). -/
def insertBy {α : Type} (le : α → α → Bool) (x : α) : List α → List α
  | [] => [x]
  | y :: ys => if le x y then x :: y :: ys else y :: insertBy le x ys

/-- Insertion sort by `le` (stand-in for `sort_unstable_by`). -/
def sortBy {α : Type} (le : α → α → Bool) : List α → List α
  | [] => []
  | x :: xs => insertBy le x (sortBy le xs)

/-- `DownloadTask::download_random` from `intercom/dependency/downloader.rs`:
among resolved peers with no in-flight query, order by `(failed_queries,
dependers first, random)`, query the first
`DOWNLOAD_PEERS * DOWNLOAD_PEERS ^ attempt` of them, and bump the (wrapping
`u8`) attempt counter.  The random draws come off the task's `rng` list. -/
def DTask.download_random (s : DTask) : DTask :=
  let filtered := s.undone_peers.filter
    (fun pr => pr.2.state == PeerState.resolved && !pr.2.is_in_flight)
  let rands := (List.range filtered.length).map (fun i => s.rng.getD i 0)
  let keyed := (filtered.zip rands).map
    (fun pr => (pr.1.1,
      (pr.1.2.failed_queries, (if pr.1.2.is_depender then (0 : Nat) else 1), pr.2)))
  let count := min (s.downloadPeersCfg * s.downloadPeersCfg ^ s.attempt)
    keyed.length
  let chosen := ((sortBy (fun a b => prioLe a.2 b.2) keyed).take count).map Prod.fst
  let s1 := chosen.foldl DTask.download_one
    { s with rng := s.rng.drop filtered.length }
  { s1 with attempt := (s1.attempt + 1) % 256 }

/-- `DownloadTask::add_depender` from `intercom/dependency/downloader.rs`. -/
def DTask.add_depender (s : DTask) (peer : PeerId) : DTask :=
  match alistGet s.undone_peers peer with
  | some st =>
      if st.is_depender then s
      else
        let st' := { st with is_depender := true }
        let s' := { s with undone_peers := setPeer s.undone_peers peer st' }
        if !st.is_in_flight && st.state == PeerState.resolved
            && st.failed_queries == 0
        then s'.download_one peer
        else s'
  | none => s

/-- `DownloadTask::match_peer_updates` from
`intercom/dependency/downloader.rs` (the `Ok` arm; a lagged receiver only logs
and a closed receiver panics). -/
def DTask.match_peer_updates (s : DTask) (peer : PeerId) (new : PeerState) :
    DTask :=
  match alistGet s.undone_peers peer with
  | none => s
  | some st =>
      let suitable := !st.is_in_flight && st.is_depender
        && st.failed_queries == 0 && st.state == PeerState.unknown
        && new == PeerState.resolved
      let st' := { st with state := new }
      let s' := { s with undone_peers := setPeer s.undone_peers peer st' }
      if suitable then s'.download_one peer else s'

/-- `DownloadTask::verify` from `intercom/dependency/downloader.rs`, returning
`Except.error ()` exactly where the Rust panics (peer missing from the map, or
a `Defined` response from a peer not marked in flight). -/
def DTask.verifyStep (s : DTask) (peer : PeerId) (q : QueryOutcome) :
    Except Unit (DTask × Option DownloadResultM) :=
  match q with
  | .tryLater =>
      match alistGet s.undone_peers peer with
      | none => Except.error ()
      | some st =>
          let st' := { st with
            is_in_flight := false
            failed_queries := st.failed_queries + 1 }
          Except.ok ({ s with undone_peers := setPeer s.undone_peers peer st' },
            none)
  | .netErr =>
      match alistGet s.undone_peers peer with
      | none => Except.error ()
      | some st =>
          let st' := { st with
            is_in_flight := false
            failed_queries := st.failed_queries + 1 }
          Except.ok ({ s with undone_peers := setPeer s.undone_peers peer st' },
            none)
  | .definedNone =>
      match alistGet s.undone_peers peer with
      | none => Except.error ()
      | some st =>
          if !st.is_in_flight then Except.error ()
          else
            let s1 := { s with undone_peers := removePeer s.undone_peers peer }
            if st.is_depender then
              Except.ok ({ s1 with
                unreliable_peers := satU8succ s1.unreliable_peers
                reliably_not_found := satU8succ s1.reliably_not_found }, none)
            else
              Except.ok ({ s1 with
                reliably_not_found := satU8succ s1.reliably_not_found }, none)
  | .definedSome point verdict =>
      match alistGet s.undone_peers peer with
      | none => Except.error ()
      | some st =>
          if !st.is_in_flight then Except.error ()
          else
            let s1 := { s with undone_peers := removePeer s.undone_peers peer }
            if point.id ≠ s.point_id then
              Except.ok ({ s1 with
                unreliable_peers := satU8succ s1.unreliable_peers }, none)
            else
              match verdict with
              | .error true =>
                  Except.ok ({ s1 with
                    unreliable_peers := satU8succ s1.unreliable_peers }, none)
              | .error false =>
                  Except.ok (s1, some (DownloadResultM.illFormedR point))
              | .ok () =>
                  Except.ok (s1, some (DownloadResultM.verifiedR point))

/-- `DownloadTask::shall_continue` from `intercom/dependency/downloader.rs`:
stop (resolving into `NotFound`) once `reliably_not_found` reaches
`majority_of_others(peer_count)`; otherwise, when nothing is downloading,
restart the interval and fan out again. -/
def DTask.shall_continue (s : DTask) : Bool × DTask :=
  if majority_of_others s.peer_count ≤ s.reliably_not_found then (false, s)
  else if s.downloading.isEmpty then (true, s.download_random)
  else (true, s)

/-- One firing of the `tokio::select!` arms in `DownloadTask::run`: the verified
broadcast, a new depender, a peer-state update, a completed query (run through
`verify` and `shall_continue`), or an interval tick. -/
inductive DlEvent where
  | verifiedBcast (point : Point)
  | dependerEv (peer : PeerId)
  | peerUpdateEv (peer : PeerId) (new : PeerState)
  | completedEv (peer : PeerId) (q : QueryOutcome)
  | tickEv
deriving DecidableEq, Repr

/-- One loop iteration of `DownloadTask::run`: `Except.error ()` is a panic,
`some result` breaks the loop. -/
def dlStep (s : DTask) (e : DlEvent) :
    Except Unit (DTask × Option DownloadResultM) :=
  match e with
  | .verifiedBcast point => Except.ok (s, some (DownloadResultM.verifiedR point))
  | .dependerEv peer => Except.ok (s.add_depender peer, none)
  | .peerUpdateEv peer new => Except.ok (s.match_peer_updates peer new, none)
  | .completedEv peer q =>
      let s0 := { s with downloading := s.downloading.erase peer }
      match s0.verifyStep peer q with
      | .error () => Except.error ()
      | .ok (s1, some found) => Except.ok (s1, some found)
      | .ok (s1, none) =>
          match s1.shall_continue with
          | (true, s2) => Except.ok (s2, none)
          | (false, s2) => Except.ok (s2, some DownloadResultM.notFound)
  | .tickEv => Except.ok (s.download_random, none)

/-- The whole `DownloadTask::run` loop over a finite schedule of select firings:
the task state is threaded through `dlStep` until some iteration breaks with a
result (`none` when the schedule is exhausted without breaking). -/
def dlRun (s : DTask) : List DlEvent →
    Except Unit (DTask × Option DownloadResultM)
  | [] => Except.ok (s, none)
  | e :: rest =>
      match dlStep s e with
      | .error () => Except.error ()
      | .ok (s', some r) => Except.ok (s', some r)
      | .ok (s', none) => dlRun s' rest

/-- Modelled from the spec: `AnchorData` lives in the `models` module that is
not under `src/`; per spec section 4.4 it bundles an anchor `PointInfo` with its
ordered history, abstracted here to the anchor round and the history rounds (the
committer-run ordering claim never inspects the contents). -/
structure AnchorData where
  anchorRound : Round
  history : List Round
deriving DecidableEq, Repr

/-- `CommitResult` as sent on `committed_info_tx` (spec section 6; the type
itself lives in the `models` module that is not under `src/`). -/
inductive CommitResult where
  | newStartAfterGap (r : Round)
  | next (data : AnchorData)
deriving DecidableEq, Repr

/-- Modelled from the spec: the `Committer` lives in the `dag` module that is
not under `src/`; per spec section 4.4 it holds the contiguous rounds
`[bottom ... top]` plus whatever anchors its next `commit()` will emit
(abstracted as the `ready` list). -/
structure Committer where
  bottom : Round
  top : Round
  ready : List AnchorData
deriving DecidableEq, Repr

/-- Modelled from the spec: `Committer::set_bottom` is not under `src/`; per
spec section 4.4 it discards rounds below the new bottom and reports whether
the new bottom is covered by the previously held rounds — the caller in
`engine/impl_.rs` treats a `false` return as a gap (`bottom > previous top`)
and emits `NewStartAfterGap`. -/
def Committer.set_bottom (c : Committer) (b : Round) : Committer × Bool :=
  ({ c with bottom := max c.bottom b }, decide (b ≤ c.top))

/-- Modelled from the spec: `Committer::extend_from_ahead` is not under `src/`;
per spec section 4.4 it splices additional front rounds on top. -/
def Committer.extend_from_ahead (c : Committer) (buf : List Round) : Committer :=
  { c with top := buf.foldl max c.top }

/-- Modelled from the spec: `Committer::commit` is not under `src/`; per spec
section 4.4 it emits the anchors that are ready, in order, and each anchor is
emitted by exactly one run. -/
def Committer.commit (c : Committer) : Committer × List AnchorData :=
  ({ c with ready := [] }, c.ready)

/-- The body of the `spawn_blocking` closure of the committer run in
`Engine::run` (`engine/impl_.rs`): apply `set_bottom`, send
`NewStartAfterGap(bottom_round)` when it reports a gap, extend from the moved
rounds buffer, commit, and send `CommitResult::Next` for each committed anchor
in order.  The returned list is the exact sequence sent on
`committed_info_tx` by this run. -/
def committerRunOutputs (c : Committer) (bottomRound : Round)
    (buf : List Round) : Committer × List CommitResult :=
  let sb := c.set_bottom bottomRound
  let gapMsgs := if sb.2 then []
    else [CommitResult.newStartAfterGap bottomRound]
  let c2 := sb.1.extend_from_ahead buf
  let cm := c2.commit
  (cm.1, gapMsgs ++ cm.2.map CommitResult.next)

/-- The seven configuration values that `CachedConfig::init` in
`engine/mempool_config.rs` feeds to the BLAKE3 hasher, in hashing order.
`genesisRound` is `align_genesis(genesis_info.start_round)` and
`genesisMillis` is `genesis_info.genesis_millis`; the remaining five come from
`ConsensusConfig`.  Every value is reset to `u128` by the code before hashing. -/
structure OverlayIdSeed where
  genesisRound : Nat
  genesisMillis : Nat
  clock_skew_millis : Nat
  payload_batch_bytes : Nat
  commit_history_rounds : Nat
  deduplicate_rounds : Nat
  max_consensus_lag_rounds : Nat
deriving DecidableEq, Repr

/-- Big-endian byte encoding of a natural number into `w` bytes
(`u128::to_be_bytes` is `beBytes 16`). -/
def beBytes : Nat → Nat → List Nat
  | 0, _ => []
  | w + 1, n => beBytes w (n / 256) ++ [n % 256]

/-- The exact byte string `CachedConfig::init` in `engine/mempool_config.rs`
feeds to the BLAKE3 hasher that produces the 32-byte overlay id: the seven
values, each widened to `u128` and written big-endian, concatenated in hashing
order.  BLAKE3 itself is external cryptography; the overlay id is its hash of
this input. -/
def overlayIdInput (c : OverlayIdSeed) : List Nat :=
  beBytes 16 c.genesisRound ++ beBytes 16 c.genesisMillis
    ++ beBytes 16 c.clock_skew_millis ++ beBytes 16 c.payload_batch_bytes
    ++ beBytes 16 c.commit_history_rounds ++ beBytes 16 c.deduplicate_rounds
    ++ beBytes 16 c.max_consensus_lag_rounds

/-- Decoding of a big-endian byte string back to a natural number. -/
def fromBeBytes (l : List Nat) : Nat :=
  l.foldl (fun acc b => acc * 256 + b) 0

/-- The shape that `Point::is_well_formed` requires of a point at the genesis
round: empty includes, witness and payload, no proof, both anchor links
`ToSelf`, and `time >= anchor_time`. -/
def genesisShapeOk (p : Point) : Bool :=
  p.body.includes.isEmpty && p.body.witness.isEmpty && p.body.payload.isEmpty
    && p.body.proof.isNone && decide (p.body.anchor_proof = Link.toSelf)
    && decide (p.body.anchor_trigger = Link.toSelf)
    && decide (p.body.anchor_time ≤ p.body.time)

/-- C3: a freshly created point whose body names the signing key pair's public
key as author passes the integrity check, and for every point the integrity
check is exactly signature verification over the digest for the body's author
together with the digest being the hash of the body. -/
theorem c3_point_integrity (hashBody : PointBody → Digest) :
    (∀ (k : KeyPair) (b : PointBody), b.location.author = k.publicKey →
      (Point.new hashBody k b).is_integrity_ok hashBody = true)
  ∧ (∀ p : Point, p.is_integrity_ok hashBody =
      (p.signature.verifies p.body.location.author p.digest
        && (p.digest == hashBody p.body))) := by
  constructor
  · intro k b h
    simp [Point.new, Point.is_integrity_ok, Signature.verifies, h]
  · intro p
    rfl

/-- C3 witness: a concrete body, key pair and hash function satisfying the
author precondition and hence the integrity check. -/
theorem c3_point_integrity_witness :
    (genesisBody 0 0 5).location.author = KeyPair.publicKey ⟨5⟩
  ∧ (Point.new (fun _ => 0) ⟨5⟩ (genesisBody 0 0 5)).is_integrity_ok
      (fun _ => 0) = true :=
  ⟨rfl, (c3_point_integrity (fun _ => 0)).1 ⟨5⟩ (genesisBody 0 0 5) rfl⟩

/-- C4 counterexample: with genesis configured at round 0, millis 0 and author
0, the point built from the same empty genesis shape but authored by peer 1 is
not the canonical genesis point, sits at the genesis round, and still passes
`is_well_formed` (the code comments `any genesis is suitable`), contradicting
the claim that every non-canonical point at a round at most genesis fails. -/
theorem c4_boundary_counterexample :
    ((Point.new (fun _ => 0) ⟨1⟩ (genesisBody 0 0 1)).is_well_formed 0 = true)
  ∧ (Point.new (fun _ => 0) ⟨1⟩ (genesisBody 0 0 1)).body.location.round = 0
  ∧ (Point.new (fun _ => 0) ⟨1⟩ (genesisBody 0 0 1)).id
      ≠ (genesisPoint (fun _ => 0) 0 0 0).id := by
  refine ⟨by decide, by decide, by decide⟩

/-- C4 amended: the canonical genesis point passes `is_well_formed`, every
point at a round strictly below genesis fails, and at the genesis round
`is_well_formed` holds exactly for genesis-shaped points (empty
includes/witness/payload, no proof, both links `ToSelf`, time at least
anchor time) — canonical or not. -/
theorem c4_well_formed_boundary (hashBody : PointBody → Digest)
    (gr : Round) (gm : UnixTime) (ga : PeerId) :
    ((genesisPoint hashBody gr gm ga).is_well_formed gr = true)
  ∧ (∀ p : Point, p.body.location.round < gr → p.is_well_formed gr = false)
  ∧ (∀ p : Point, p.body.location.round = gr →
      p.is_well_formed gr = genesisShapeOk p) := by
  refine ⟨?_, ?_, ?_⟩
  · simp [genesisPoint, Point.new, genesisBody, Point.is_well_formed,
      Point.is_link_well_formed, Point.anchor_link, Point.anchor_round,
      anchorRoundsOk, alistGet, alistContains]
  · intro p h
    have h1 : p.body.location.round ≠ gr := Nat.ne_of_lt h
    have h2 : ¬ gr < p.body.location.round := Nat.not_lt.mpr (Nat.le_of_lt h)
    simp [Point.is_well_formed, h1, h2]
  · intro p h
    rcases p with ⟨⟨⟨rnd, auth⟩, time, payload, proof, includes, witness, atrig,
      aproof, atime⟩, dig, sg⟩
    have h' : rnd = gr := h
    subst h'
    cases includes with
    | cons a l => simp [Point.is_well_formed, genesisShapeOk]
    | nil =>
      cases witness with
      | cons a l => simp [Point.is_well_formed, genesisShapeOk]
      | nil =>
        cases payload with
        | cons a l => simp [Point.is_well_formed, genesisShapeOk]
        | nil =>
          cases proof with
          | some pr => simp [Point.is_well_formed, genesisShapeOk]
          | none =>
            cases aproof with
            | direct t => simp [Point.is_well_formed, genesisShapeOk]
            | indirect target t => simp [Point.is_well_formed, genesisShapeOk]
            | toSelf =>
              cases atrig with
              | direct t => simp [Point.is_well_formed, genesisShapeOk]
              | indirect target t => simp [Point.is_well_formed, genesisShapeOk]
              | toSelf =>
                simp [Point.is_well_formed, genesisShapeOk,
                  Point.is_link_well_formed, Point.anchor_link,
                  Point.anchor_round, anchorRoundsOk, alistGet]

/-- C4 amended witness: at a concrete genesis configuration, the genesis point
is well-formed, a point below genesis is rejected, and a genesis-round point's
verdict coincides with the genesis shape check. -/
theorem c4_well_formed_boundary_witness :
    ((genesisPoint (fun _ => 0) 3 0 0).is_well_formed 3 = true)
  ∧ ((Point.new (fun _ => 0) ⟨1⟩ (genesisBody 2 0 1)).is_well_formed 3 = false)
  ∧ ((Point.new (fun _ => 0) ⟨1⟩ (genesisBody 3 0 1)).is_well_formed 3
      = genesisShapeOk (Point.new (fun _ => 0) ⟨1⟩ (genesisBody 3 0 1))) :=
  ⟨(c4_well_formed_boundary (fun _ => 0) 3 0 0).1,
   (c4_well_formed_boundary (fun _ => 0) 3 0 0).2.1 _ (by decide),
   (c4_well_formed_boundary (fun _ => 0) 3 0 0).2.2 _ (by decide)⟩

/-- C10: with no validator keys for the round, an unsettled signing decision is
immediately and permanently rejected, even when the verdict is `Trusted` and in
range, and a later call that does supply keys can neither sign nor change the
rejection. -/
theorem c10_sign_no_keys_rejects (hashBody : PointBody → Digest)
    (sg : Signable) (at_ : Round) (lo hi : UnixTime)
    (h : sg.signed = none) :
    ((sg.sign hashBody at_ none lo hi).1.signed = some (Except.error ()))
  ∧ ((sg.sign hashBody at_ none lo hi).2 = false)
  ∧ (∀ (k : KeyPair) (a2 : Round) (lo2 hi2 : UnixTime),
      (((sg.sign hashBody at_ none lo hi).1.sign hashBody a2 (some k) lo2
          hi2).1.signed = some (Except.error ()))
    ∧ (((sg.sign hashBody at_ none lo hi).1.sign hashBody a2 (some k) lo2
          hi2).2 = false)) := by
  have h1 : (sg.sign hashBody at_ none lo hi)
      = (sg.reject, false) := by
    unfold Signable.sign
    cases Signable.filter sg.first_completed <;> rfl
  have h2 : sg.reject.signed = some (Except.error ()) := by
    simp [Signable.reject, onceSet, h]
  refine ⟨by rw [h1]; exact h2, by rw [h1], ?_⟩
  intro k a2 lo2 hi2
  rw [h1]
  simp only
  unfold Signable.sign
  have hfc : sg.reject.first_completed = sg.first_completed := rfl
  rw [hfc]
  cases hf : Signable.filter sg.first_completed with
  | none => simp [Signable.reject, onceSet, h]
  | some valid =>
      simp only
      by_cases hin : lo2 ≤ valid.point.body.time ∧ valid.point.body.time ≤ hi2
      · simp [hin, Signable.reject, onceSet, h]
      · simp only [hin, if_false]
        by_cases hlt : valid.point.body.time < lo2
        · simp [hlt, Signable.reject, onceSet, h]
        · simp [hlt, Signable.reject, onceSet, h]

/-- C10 witness: a concrete unsettled trusted state in range that is rejected
by a keyless call and stays rejected under a later keyed call. -/
theorem c10_sign_no_keys_rejects_witness :
    (Signable.signed ⟨DagPoint.trusted ⟨Point.new (fun _ => 0) ⟨1⟩ (genesisBody 0 5 1)⟩, none⟩ = none)
  ∧ ((Signable.sign (fun _ => 0) ⟨DagPoint.trusted ⟨Point.new (fun _ => 0) ⟨1⟩ (genesisBody 0 5 1)⟩, none⟩ 7 none 0 10).1.signed = some (Except.error ()))
  ∧ ((((Signable.sign (fun _ => 0) ⟨DagPoint.trusted ⟨Point.new (fun _ => 0) ⟨1⟩ (genesisBody 0 5 1)⟩, none⟩ 7 none 0 10).1).sign (fun _ => 0) 8 (some ⟨2⟩) 0 10).2 = false) :=
  ⟨rfl,
   (c10_sign_no_keys_rejects (fun _ => 0) _ 7 0 10 rfl).1,
   ((c10_sign_no_keys_rejects (fun _ => 0) _ 7 0 10 rfl).2.2 ⟨2⟩ 8 0 10).2⟩

/-- An already-settled decision survives any further `Signable::sign` call, and
such a call reports that it did not sign. -/
theorem sign_keeps_decision (hashBody : PointBody → Digest) (sg : Signable)
    (a : Round) (kp : Option KeyPair) (lo hi : UnixTime)
    (r : Except Unit Signed) (h : sg.signed = some r) :
    (sg.sign hashBody a kp lo hi).1.signed = some r
  ∧ (sg.sign hashBody a kp lo hi).2 = false := by
  unfold Signable.sign
  cases hf : Signable.filter sg.first_completed with
  | none => cases kp <;> simp [Signable.reject, onceSet, h]
  | some valid =>
      cases kp with
      | none => simp [Signable.reject, onceSet, h]
      | some key =>
          simp only
          by_cases hin : lo ≤ valid.point.body.time ∧ valid.point.body.time ≤ hi
          · simp [hin, h]
          · simp only [hin, if_false]
            by_cases hlt : valid.point.body.time < lo
            · simp [hlt, Signable.reject, onceSet, h]
            · simp [hlt, h]

/-- C5: on an unsettled state with keys supplied, `Signable::sign` signs exactly
when the first completed verdict is `Trusted` and its time is within the
inclusive range; a trusted point older than the range start is rejected; a
trusted point newer than the range end leaves the state untouched; a
non-`Trusted` verdict is rejected; and a settled decision is never altered. -/
theorem c5_sign_semantics (hashBody : PointBody → Digest) (sg : Signable)
    (a : Round) (k : KeyPair) (lo hi : UnixTime) (h : sg.signed = none) :
    (∀ valid : ValidPoint, Signable.filter sg.first_completed = some valid →
      ((lo ≤ valid.point.body.time ∧ valid.point.body.time ≤ hi →
          (sg.sign hashBody a (some k) lo hi).1.signed
            = some (Except.ok ⟨a, PointBody.sign hashBody valid.point.body k⟩)
        ∧ (sg.sign hashBody a (some k) lo hi).2 = true)
      ∧ (valid.point.body.time < lo →
          (sg.sign hashBody a (some k) lo hi).1.signed
            = some (Except.error ())
        ∧ (sg.sign hashBody a (some k) lo hi).2 = false)
      ∧ (hi < valid.point.body.time → lo ≤ valid.point.body.time →
          (sg.sign hashBody a (some k) lo hi).1 = sg
        ∧ (sg.sign hashBody a (some k) lo hi).2 = false)))
  ∧ (Signable.filter sg.first_completed = none →
      (sg.sign hashBody a (some k) lo hi).1.signed = some (Except.error ())
    ∧ (sg.sign hashBody a (some k) lo hi).2 = false)
  ∧ (∀ (r : Except Unit Signed) (sg2 : Signable), sg2.signed = some r →
      (sg2.sign hashBody a (some k) lo hi).1.signed = some r
    ∧ (sg2.sign hashBody a (some k) lo hi).2 = false) := by
  refine ⟨?_, ?_, ?_⟩
  · intro valid hf
    refine ⟨?_, ?_, ?_⟩
    · intro hin
      unfold Signable.sign
      simp [hf, hin, h]
    · intro hlt
      have hnin : ¬ (lo ≤ valid.point.body.time ∧ valid.point.body.time ≤ hi) :=
        fun hc => absurd hlt (Nat.not_lt.mpr hc.1)
      unfold Signable.sign
      simp [hf, hnin, hlt, Signable.reject, onceSet, h]
    · intro hgt hge
      have hnin : ¬ (lo ≤ valid.point.body.time ∧ valid.point.body.time ≤ hi) :=
        fun hc => absurd hgt (Nat.not_lt.mpr hc.2)
      have hnlt : ¬ valid.point.body.time < lo := Nat.not_lt.mpr hge
      unfold Signable.sign
      simp [hf, hnin, hnlt]
  · intro hf
    unfold Signable.sign
    simp [hf, Signable.reject, onceSet, h]
  · intro r sg2 h2
    exact sign_keeps_decision hashBody sg2 a (some k) lo hi r h2

/-- C5 witness: a concrete unsettled trusted state whose time sits inside the
range is signed by a keyed call, and a concrete settled state stays as it is. -/
theorem c5_sign_semantics_witness :
    ((Signable.sign (fun _ => 0) ⟨DagPoint.trusted ⟨Point.new (fun _ => 0) ⟨1⟩ (genesisBody 0 5 1)⟩, none⟩ 7 (some ⟨2⟩) 4 9).2 = true)
  ∧ ((Signable.sign (fun _ => 0) ⟨DagPoint.notFound, some (Except.error ())⟩ 7 (some ⟨2⟩) 4 9).1.signed = some (Except.error ())) :=
  ⟨(((c5_sign_semantics (fun _ => 0) ⟨DagPoint.trusted ⟨Point.new (fun _ => 0) ⟨1⟩ (genesisBody 0 5 1)⟩, none⟩ 7 ⟨2⟩ 4 9 rfl).1
      ⟨Point.new (fun _ => 0) ⟨1⟩ (genesisBody 0 5 1)⟩ rfl).1 (by decide)).2,
   ((c5_sign_semantics (fun _ => 0) ⟨DagPoint.trusted ⟨Point.new (fun _ => 0) ⟨1⟩ (genesisBody 0 5 1)⟩, none⟩ 7 ⟨2⟩ 4 9 rfl).2.2 (Except.error ()) ⟨DagPoint.notFound, some (Except.error ())⟩ rfl).1⟩

/-- A single `InclusionState` call never changes an already-settled decision. -/
theorem locStep_preserves_signed (hashBody : PointBody → Digest)
    (a : LocAction) (s : InclusionState) (r : Except Unit Signed)
    (h : signedOf s = some r) :
    signedOf (locStep hashBody s a) = some r := by
  cases s with
  | none => simp [signedOf] at h
  | some sg =>
      have hsg : sg.signed = some r := h
      cases a with
      | insertOwn p =>
          unfold locStep InclusionState.insert_own_point
          cases hfp : Signable.filter p <;> simp [hfp, signedOf, hsg]
      | initFirst p =>
          simp [locStep, InclusionState.init, signedOf, hsg]
      | signAct at_ kp lo hi =>
          simpa [locStep, signedOf] using
            (sign_keeps_decision hashBody sg at_ kp lo hi r hsg).1
      | rejectAct =>
          simp [locStep, signedOf, Signable.reject, onceSet, hsg]

/-- C1: over any sequence of `insert_own_point`, `init` (the `add_validate`
completion hook), `sign` and `reject` calls, a location's inclusion state keeps
at most one signed result, and a decision, once set, is never replaced or
rolled back by a later call. -/
theorem c1_inclusion_decision_monotone (hashBody : PointBody → Digest)
    (acts : List LocAction) (s : InclusionState) (r : Except Unit Signed)
    (h : signedOf s = some r) :
    signedOf (acts.foldl (locStep hashBody) s) = some r := by
  induction acts generalizing s with
  | nil => simpa using h
  | cons a rest ih =>
      exact ih (locStep hashBody s a) (locStep_preserves_signed hashBody a s r h)

/-- C1 witness: a concrete settled (rejected) state survives a later init, a
keyed sign call, an own-point insertion and an explicit reject unchanged. -/
theorem c1_inclusion_decision_monotone_witness :
    signedOf ([LocAction.initFirst DagPoint.notFound,
        LocAction.signAct 3 (some ⟨2⟩) 0 9, LocAction.rejectAct,
        LocAction.insertOwn DagPoint.notFound].foldl
      (locStep (fun _ => 0))
      (some ⟨DagPoint.notFound, some (Except.error ())⟩))
    = some (Except.error ()) :=
  c1_inclusion_decision_monotone (fun _ => 0) _ _ (Except.error ()) rfl

/-- C6 counterexample: with `CONCURRENT_DOWNLOADS = 1`, two successive
`Limiter::enter` calls are both admitted immediately (no semaphore handed out),
leaving two tasks running concurrently — the `running <= cap` comparison is
deliberately non-strict, so the cap is exceeded by one and the second task does
not wait, contradicting the claim as stated. -/
theorem c6_limiter_counterexample :
    (Limiter.enter 1 { running := 0, waiters := [] } 0).2 = none
  ∧ (Limiter.enter 1 (Limiter.enter 1 { running := 0, waiters := [] } 0).1 0).2
      = none
  ∧ (Limiter.enter 1
      (Limiter.enter 1 { running := 0, waiters := [] } 0).1 0).1.running = 2 := by
  refine ⟨by decide, by decide, by decide⟩

/-- The inductive invariant of the limiter trace system: the executing count
coincides with the running counter, stays at most one above the cap, and every
queued round has a non-empty waiter queue. -/
def limInv (s : LimSystem) : Prop :=
  s.executing = s.lim.running ∧ s.lim.running ≤ s.cap + 1
    ∧ ∀ pr ∈ s.lim.waiters, pr.2 ≠ ([] : List Nat)

/-- The largest entry of the waiter map is one of its entries. -/
theorem maxKeyEntry_mem (w : List (Round × List Nat)) (pr : Round × List Nat)
    (h : maxKeyEntry w = some pr) : pr ∈ w := by
  induction w generalizing pr with
  | nil => simp [maxKeyEntry] at h
  | cons hd tl ih =>
      unfold maxKeyEntry at h
      cases hm : maxKeyEntry tl with
      | none => rw [hm] at h; obtain ⟨rfl⟩ := h; exact List.mem_cons_self hd tl
      | some pr' =>
          rw [hm] at h
          by_cases hlt : hd.1 < pr'.1
          · simp only [hlt, if_pos] at h
            obtain ⟨rfl⟩ := h
            exact List.mem_cons_of_mem hd (ih pr' hm)
          · simp only [hlt, if_neg, if_false] at h
            obtain ⟨rfl⟩ := h
            exact List.mem_cons_self hd tl

/-- Pushing a waiter keeps every queue in the map non-empty. -/
theorem pushWaiter_nonempty (w : List (Round × List Nat)) (r : Round) (sem : Nat)
    (h : ∀ pr ∈ w, pr.2 ≠ ([] : List Nat)) :
    ∀ pr ∈ pushWaiter w r sem, pr.2 ≠ ([] : List Nat) := by
  induction w with
  | nil =>
      intro pr hpr
      simp [pushWaiter] at hpr
      simp [hpr]
  | cons hd tl ih =>
      intro pr hpr
      unfold pushWaiter at hpr
      by_cases he : hd.1 = r
      · rw [if_pos he] at hpr
        rcases List.mem_cons.mp hpr with hh | ht
        · subst hh; simp
        · exact h pr (List.mem_cons_of_mem hd ht)
      · rw [if_neg he] at hpr
        rcases List.mem_cons.mp hpr with hh | ht
        · subst hh; exact h hd (List.mem_cons_self hd tl)
        · exact ih (fun q hq => h q (List.mem_cons_of_mem hd hq)) pr ht

/-- Replacing (or dropping) one queue keeps every queue in the map non-empty. -/
theorem setQueue_nonempty (w : List (Round × List Nat)) (r : Round)
    (nq : List Nat) (h : ∀ pr ∈ w, pr.2 ≠ ([] : List Nat)) :
    ∀ pr ∈ setQueue w r nq, pr.2 ≠ ([] : List Nat) := by
  induction w with
  | nil => intro pr hpr; simp [setQueue] at hpr
  | cons hd tl ih =>
      intro pr hpr
      unfold setQueue at hpr
      by_cases he : hd.1 = r
      · rw [if_pos he] at hpr
        by_cases hn : nq.isEmpty
        · rw [if_pos hn] at hpr
          exact h pr (List.mem_cons_of_mem hd hpr)
        · rw [if_neg hn] at hpr
          rcases List.mem_cons.mp hpr with hh | ht
          · subst hh
            simpa [List.isEmpty_iff] using hn
          · exact h pr (List.mem_cons_of_mem hd ht)
      · rw [if_neg he] at hpr
        rcases List.mem_cons.mp hpr with hh | ht
        · subst hh; exact h hd (List.mem_cons_self hd tl)
        · exact ih (fun q hq => h q (List.mem_cons_of_mem hd hq)) pr ht

/-- One limiter transition preserves the invariant. -/
theorem limStep_preserves_inv (s : LimSystem) (e : LimEvent)
    (h : limInv s) : limInv (limStep s e) := by
  obtain ⟨hex, hcap, hwq⟩ := h
  cases e with
  | enterEv r =>
      unfold limStep Limiter.enter
      by_cases hr : s.lim.running ≤ s.cap
      · simp only [hr, if_pos]
        exact ⟨by simp [hex], by simpa using Nat.succ_le_succ hr, by simpa using hwq⟩
      · simp only [hr, if_neg, if_false]
        refine ⟨by simp [hex], by simpa using hcap, ?_⟩
        simpa using pushWaiter_nonempty s.lim.waiters r 0 hwq
  | exitEv =>
      unfold limStep
      cases hexv : s.executing with
      | zero => exact ⟨hex, hcap, hwq⟩
      | succ n =>
          unfold Limiter.exit
          cases hm : maxKeyEntry s.lim.waiters with
          | some pr =>
              obtain ⟨r, q⟩ := pr
              cases hq : q with
              | nil =>
                  exact absurd (hq ▸ hwq ⟨r, q⟩ (maxKeyEntry_mem _ _ hm)) (by simp [hq])
              | cons x qrest =>
                  refine ⟨by simpa using hex ▸ hexv.symm ▸ rfl, ?_, ?_⟩
                  · simpa using hcap
                  · simpa using setQueue_nonempty s.lim.waiters r qrest hwq
          | none =>
              have hrun : s.lim.running = n + 1 := by rw [← hex, hexv]
              rw [hrun]
              simp only
              have h2 : n + 1 ≤ s.cap + 1 := by rw [← hrun]; exact hcap
              refine ⟨by simp, ?_, by simpa using hwq⟩
              simpa using Nat.le_succ_of_le (Nat.succ_le_succ_iff.mp h2)

/-- C6 amended: across any sequence of `Limiter::enter`/`Limiter::exit`
transitions from a fresh limiter, the number of download tasks concurrently
executing their body never exceeds `CONCURRENT_DOWNLOADS + 1` (the non-strict
admission comparison always allows one extra task), and a task that enters once
`running` is above the cap receives a zero-permit semaphore to wait on instead
of being admitted. -/
theorem c6_limiter_cap_plus_one :
    (∀ (cap : Nat) (evs : List LimEvent),
      (evs.foldl limStep (initLimSystem cap)).executing ≤ cap + 1)
  ∧ (∀ (cap : Nat) (l : Limiter) (r : Round),
      (Limiter.enter cap l r).2
        = if l.running ≤ cap then none else some 0) := by
  constructor
  · intro cap evs
    have hcap : ∀ (s : LimSystem) (es : List LimEvent), limInv s →
        limInv (es.foldl limStep s) := by
      intro s es
      induction es generalizing s with
      | nil => exact fun hs => hs
      | cons e rest ih => exact fun hs => ih _ (limStep_preserves_inv s e hs)
    have hinv : limInv (evs.foldl limStep (initLimSystem cap)) :=
      hcap _ evs ⟨rfl, by simp [initLimSystem], by simp [initLimSystem]⟩
    have hc : (evs.foldl limStep (initLimSystem cap)).cap = cap := by
      have : ∀ (s : LimSystem) (es : List LimEvent),
          (es.foldl limStep s).cap = s.cap := by
        intro s es
        induction es generalizing s with
        | nil => rfl
        | cons e rest ih =>
            rw [List.foldl_cons, ih]
            cases e with
            | enterEv r => rfl
            | exitEv =>
                unfold limStep
                cases hse : s.executing with
                | zero => simp [hse]
                | succ n =>
                    rcases hlx : s.lim.exit with ⟨l2, woke⟩
                    simp [hse, hlx]
      exact this _ _
    calc (evs.foldl limStep (initLimSystem cap)).executing
        = (evs.foldl limStep (initLimSystem cap)).lim.running := hinv.1
      _ ≤ (evs.foldl limStep (initLimSystem cap)).cap + 1 := hinv.2.1
      _ = cap + 1 := by rw [hc]
  · intro cap l r
    unfold Limiter.enter
    by_cases hr : l.running ≤ cap <;> simp [hr]

/-- C7: evaluated at a depender peer answering `Defined(None)`, the task's
`verify` increments both `unreliable_peers` and `reliably_not_found` — the
`FIXME`-marked line counts a depender's not-found answer as reliable, although
the code's own comments state a depender's `NotFound` response is not reliable. -/
theorem c7_depender_not_found_divergence :
    DTask.verifyStep
      ⟨⟨⟨0, 0⟩, 0⟩, 4, 0, 0, [(3, ⟨PeerState.resolved, 0, true, true⟩)], [3], 0, 2, []⟩
      3 QueryOutcome.definedNone
    = Except.ok
      (⟨⟨⟨0, 0⟩, 0⟩, 4, 1, 1, [], [3], 0, 2, []⟩, none) := by
  decide

/-- Marker for the gap message among commit results. -/
def isGapMsg : CommitResult → Bool
  | CommitResult.newStartAfterGap _ => true
  | CommitResult.next _ => false

/-- A map of `CommitResult.next` over anchors contains no gap message. -/
theorem countP_gap_map_next (l : List AnchorData) :
    (l.map CommitResult.next).countP isGapMsg = 0 := by
  induction l with
  | nil => rfl
  | cons a rest ih => simp [List.countP_cons, isGapMsg, ih]

/-- C8: a committer run emits `NewStartAfterGap(bottom)` exactly once when the
new bottom lies above the previously held top round (and never otherwise), and
it emits it before every `CommitResult::Next` of that run, so no anchor of the
run precedes its gap notification on `committed_info_tx`. -/
theorem c8_gap_once_before_anchors (c : Committer) (b : Round)
    (buf : List Round) :
    ((committerRunOutputs c b buf).2.countP isGapMsg
      = if c.top < b then 1 else 0)
  ∧ ∃ nexts : List CommitResult,
      (∀ m ∈ nexts, ∃ d, m = CommitResult.next d)
    ∧ (committerRunOutputs c b buf).2
        = (if c.top < b then [CommitResult.newStartAfterGap b] else [])
          ++ nexts := by
  unfold committerRunOutputs Committer.set_bottom Committer.extend_from_ahead
  unfold Committer.commit
  by_cases hb : b ≤ c.top
  · have hnot : ¬ c.top < b := Nat.not_lt.mpr hb
    refine ⟨?_, c.ready.map CommitResult.next, ?_, ?_⟩
    · simp [hb, hnot, countP_gap_map_next, isGapMsg]
    · intro m hm
      rcases List.mem_map.mp hm with ⟨d, _, rfl⟩
      exact ⟨d, rfl⟩
    · simp [hb, hnot]
  · have hlt : c.top < b := Nat.lt_of_not_le hb
    refine ⟨?_, c.ready.map CommitResult.next, ?_, ?_⟩
    · simp [hb, hlt, List.countP_cons, isGapMsg, countP_gap_map_next, Nat.not_le.mpr hlt]
    · intro m hm
      rcases List.mem_map.mp hm with ⟨d, _, rfl⟩
      exact ⟨d, rfl⟩
    · simp [hb, hlt]

/-- Every big-endian encoding has exactly its width in bytes. -/
theorem beBytes_length (w n : Nat) : (beBytes w n).length = w := by
  induction w generalizing n with
  | zero => rfl
  | succ w ih => simp [beBytes, ih]

/-- Folding the byte accumulator from an arbitrary start. -/
theorem foldl_mul_add (l : List Nat) (a : Nat) :
    l.foldl (fun acc b => acc * 256 + b) a
      = a * 256 ^ l.length + l.foldl (fun acc b => acc * 256 + b) 0 := by
  induction l generalizing a with
  | nil => simp
  | cons x xs ih =>
      simp only [List.foldl_cons, List.length_cons]
      rw [ih (a * 256 + x), ih (0 * 256 + x)]
      ring

/-- Decoding inverts the big-endian encoding of any value within range. -/
theorem fromBe_beBytes (w n : Nat) (h : n < 256 ^ w) :
    fromBeBytes (beBytes w n) = n := by
  induction w generalizing n with
  | zero =>
      have hn : n = 0 := Nat.lt_one_iff.mp (by simpa using h)
      simp [beBytes, fromBeBytes, hn]
  | succ w ih =>
      have hdiv : n / 256 < 256 ^ w := by
        rw [Nat.div_lt_iff_lt_mul (by norm_num : 0 < 256)]
        calc n < 256 ^ (w + 1) := h
          _ = 256 ^ w * 256 := by rw [pow_succ]
      show ((beBytes w (n / 256)) ++ [n % 256]).foldl
        (fun acc b => acc * 256 + b) 0 = n
      rw [List.foldl_append]
      simp only [List.foldl_cons, List.foldl_nil]
      have hh : (beBytes w (n / 256)).foldl (fun acc b => acc * 256 + b) 0
          = n / 256 := ih (n / 256) hdiv
      rw [hh, Nat.mul_comm]
      exact Nat.div_add_mod n 256

/-- All seven hashed configuration values fit in `u128`. -/
def OverlayIdSeed.u128Bounded (c : OverlayIdSeed) : Prop :=
  c.genesisRound < 2 ^ 128 ∧ c.genesisMillis < 2 ^ 128
    ∧ c.clock_skew_millis < 2 ^ 128 ∧ c.payload_batch_bytes < 2 ^ 128
    ∧ c.commit_history_rounds < 2 ^ 128 ∧ c.deduplicate_rounds < 2 ^ 128
    ∧ c.max_consensus_lag_rounds < 2 ^ 128

/-- `256 ^ 16` and `2 ^ 128` are the same bound. -/
theorem pow256_16 : (256 : Nat) ^ 16 = 2 ^ 128 := by norm_num

/-- Peeling one 16-byte block off an equality of concatenated encodings. -/
theorem peel_block {a a' : Nat} {r r' : List Nat}
    (h : beBytes 16 a ++ r = beBytes 16 a' ++ r')
    (ha : a < 2 ^ 128) (ha' : a' < 2 ^ 128) : a = a' ∧ r = r' := by
  have hlen : (beBytes 16 a).length = (beBytes 16 a').length := by
    rw [beBytes_length, beBytes_length]
  obtain ⟨hblk, hrest⟩ := List.append_inj h hlen
  refine ⟨?_, hrest⟩
  have := congrArg fromBeBytes hblk
  rwa [fromBe_beBytes 16 a (by rw [pow256_16]; exact ha),
    fromBe_beBytes 16 a' (by rw [pow256_16]; exact ha')] at this

/-- C9: the byte string hashed into the overlay id is 112 bytes — seven values
widened to `u128`, big-endian, in the fixed order genesis round, genesis
millis, clock skew, payload batch bytes, commit history rounds, deduplicate
rounds, max consensus lag rounds — and it determines all seven values, so two
configurations differing in any of them feed different input to the hash. -/
theorem c9_overlay_id_input (c c' : OverlayIdSeed)
    (h : c.u128Bounded) (h' : c'.u128Bounded) :
    (overlayIdInput c).length = 112
  ∧ (overlayIdInput c = overlayIdInput c' → c = c') := by
  obtain ⟨h1, h2, h3, h4, h5, h6, h7⟩ := h
  obtain ⟨g1, g2, g3, g4, g5, g6, g7⟩ := h'
  constructor
  · simp [overlayIdInput, beBytes_length]
  · intro heq
    unfold overlayIdInput at heq
    simp only [List.append_assoc] at heq
    obtain ⟨e1, heq⟩ := peel_block heq h1 g1
    obtain ⟨e2, heq⟩ := peel_block heq h2 g2
    obtain ⟨e3, heq⟩ := peel_block heq h3 g3
    obtain ⟨e4, heq⟩ := peel_block heq h4 g4
    obtain ⟨e5, heq⟩ := peel_block heq h5 g5
    obtain ⟨e6, heq⟩ := peel_block heq h6 g6
    have e7 : c.max_consensus_lag_rounds = c'.max_consensus_lag_rounds := by
      have := congrArg fromBeBytes heq
      rwa [fromBe_beBytes 16 _ (by rw [pow256_16]; exact h7),
        fromBe_beBytes 16 _ (by rw [pow256_16]; exact g7)] at this
    cases c
    cases c'
    simp only at e1 e2 e3 e4 e5 e6 e7
    simp [e1, e2, e3, e4, e5, e6, e7]

/-- C9 witness: two concrete in-range configurations differing only in the
clock skew produce different hash inputs. -/
theorem c9_overlay_id_input_witness :
    overlayIdInput ⟨7, 1000, 0, 0, 0, 0, 0⟩
      ≠ overlayIdInput ⟨7, 1000, 5, 0, 0, 0, 0⟩ :=
  fun heq => absurd
    ((c9_overlay_id_input ⟨7, 1000, 0, 0, 0, 0, 0⟩ ⟨7, 1000, 5, 0, 0, 0, 0⟩
      (by constructor <;> norm_num) (by constructor <;> norm_num)).2 heq)
    (by decide)

/-- `DownloadTask::verify` never produces the `NotFound` result itself: its
found outcomes are only `Verified` or `IllFormed`. -/
theorem verifyStep_no_notFound (s : DTask) (peer : PeerId) (q : QueryOutcome)
    (t : DTask)
    (h : s.verifyStep peer q = Except.ok (t, some DownloadResultM.notFound)) :
    False := by
  unfold DTask.verifyStep at h
  cases q with
  | tryLater =>
      cases hg : alistGet s.undone_peers peer <;> rw [hg] at h <;> simp at h
  | netErr =>
      cases hg : alistGet s.undone_peers peer <;> rw [hg] at h <;> simp at h
  | definedNone =>
      cases hg : alistGet s.undone_peers peer with
      | none => rw [hg] at h; simp at h
      | some st =>
          rw [hg] at h
          cases hf : st.is_in_flight with
          | false => simp [hf] at h
          | true =>
              cases hd : st.is_depender with
              | false => simp [hf, hd] at h
              | true => simp [hf, hd] at h
  | definedSome p v =>
      cases hg : alistGet s.undone_peers peer with
      | none => rw [hg] at h; simp at h
      | some st =>
          rw [hg] at h
          cases hf : st.is_in_flight with
          | false => simp [hf] at h
          | true =>
              by_cases hid : p.id ≠ s.point_id
              · simp [hf, hid] at h
              · cases v with
                | error b => cases b <;> simp [hf, hid] at h
                | ok u => cases u; simp [hf, hid] at h

/-- A `false` verdict of `DownloadTask::shall_continue` leaves the state as it
is and certifies that the reliable not-found count reached the threshold. -/
theorem shall_continue_false_iff (s s' : DTask)
    (h : s.shall_continue = (false, s')) :
    s' = s ∧ majority_of_others s.peer_count ≤ s.reliably_not_found := by
  unfold DTask.shall_continue at h
  by_cases hc : majority_of_others s.peer_count ≤ s.reliably_not_found
  · rw [if_pos hc] at h
    injection h with h1 h2
    exact ⟨h2.symm, hc⟩
  · rw [if_neg hc] at h
    by_cases hd : s.downloading.isEmpty <;> simp [hd] at h

/-- A loop iteration that breaks with `NotFound` leaves a state whose reliable
not-found count reached `majority_of_others(peer_count)`. -/
theorem dlStep_notFound (s : DTask) (e : DlEvent) (t : DTask)
    (h : dlStep s e = Except.ok (t, some DownloadResultM.notFound)) :
    majority_of_others t.peer_count ≤ t.reliably_not_found := by
  cases e with
  | verifiedBcast p => simp [dlStep] at h
  | dependerEv peer => simp [dlStep] at h
  | peerUpdateEv peer new => simp [dlStep] at h
  | tickEv => simp [dlStep] at h
  | completedEv peer q =>
      simp only [dlStep] at h
      cases hv : DTask.verifyStep { s with downloading := s.downloading.erase peer }
          peer q with
      | error u => rw [hv] at h; simp at h
      | ok pr =>
          obtain ⟨s1, ropt⟩ := pr
          rw [hv] at h
          cases ropt with
          | some r =>
              have h2 : (Except.ok (s1, some r) :
                  Except Unit (DTask × Option DownloadResultM))
                  = Except.ok (t, some DownloadResultM.notFound) := h
              simp at h2
              obtain ⟨rfl, rfl⟩ := h2
              exact absurd hv (fun hc => verifyStep_no_notFound _ _ _ _ hc)
          | none =>
              cases hsc : DTask.shall_continue s1 with
              | mk cont s2 =>
                  have h2 : (match DTask.shall_continue s1 with
                      | (true, s2) => (Except.ok (s2, none) :
                          Except Unit (DTask × Option DownloadResultM))
                      | (false, s2) =>
                          Except.ok (s2, some DownloadResultM.notFound))
                      = Except.ok (t, some DownloadResultM.notFound) := h
                  rw [hsc] at h2
                  cases cont with
                  | true => simp at h2
                  | false =>
                      obtain ⟨h21, hthr⟩ := shall_continue_false_iff s1 s2 hsc
                      subst h21
                      have h3 : (Except.ok (s2, some DownloadResultM.notFound) :
                          Except Unit (DTask × Option DownloadResultM))
                          = Except.ok (t, some DownloadResultM.notFound) := h2
                      simp at h3
                      subst h3
                      exact hthr

/-- C2: the download loop only resolves into `NotFound` in a state whose
reliable not-found count reached `majority_of_others(peer_count)` — with fewer
such responses it never terminates with `NotFound` — and below the threshold
`shall_continue` keeps the task alive, fanning out again (after resetting the
query interval) exactly when its download queue is empty. -/
theorem c2_notfound_needs_majority :
    (∀ (s : DTask) (events : List DlEvent) (t : DTask),
        dlRun s events = Except.ok (t, some DownloadResultM.notFound) →
        majority_of_others t.peer_count ≤ t.reliably_not_found)
  ∧ (∀ s : DTask,
        s.reliably_not_found < majority_of_others s.peer_count →
        s.shall_continue
          = (true, if s.downloading.isEmpty then s.download_random else s)) := by
  constructor
  · intro s events
    induction events generalizing s with
    | nil => intro t h; simp [dlRun] at h
    | cons e rest ih =>
        intro t h
        unfold dlRun at h
        cases hstep : dlStep s e with
        | error u => rw [hstep] at h; simp at h
        | ok pr =>
            obtain ⟨s', ropt⟩ := pr
            rw [hstep] at h
            cases ropt with
            | some r =>
                have h2 : (Except.ok (s', some r) :
                    Except Unit (DTask × Option DownloadResultM))
                    = Except.ok (t, some DownloadResultM.notFound) := h
                simp at h2
                obtain ⟨rfl, rfl⟩ := h2
                exact dlStep_notFound s e s' hstep
            | none =>
                exact ih s' t h
  · intro s hs
    unfold DTask.shall_continue
    rw [if_neg (Nat.not_le.mpr hs)]
    by_cases hd : s.downloading.isEmpty
    · rw [if_pos hd, if_pos hd]
    · rw [if_neg hd, if_neg hd]

/-- C2 witness: with four validators (threshold two), a task holding two
resolved in-flight peers that both answer `Defined(None)` resolves into
`NotFound` with its counter at the threshold, and a mid-way state below the
threshold keeps going. -/
theorem c2_notfound_needs_majority_witness :
    majority_of_others
      (DTask.peer_count ⟨⟨⟨0, 0⟩, 0⟩, 4, 2, 0, [], [], 0, 2, []⟩)
      ≤ DTask.reliably_not_found ⟨⟨⟨0, 0⟩, 0⟩, 4, 2, 0, [], [], 0, 2, []⟩
  ∧ DTask.shall_continue
      ⟨⟨⟨0, 0⟩, 0⟩, 4, 1, 0, [(1, ⟨PeerState.resolved, 0, false, true⟩)], [1], 0, 2, []⟩
      = (true,
        if (DTask.downloading ⟨⟨⟨0, 0⟩, 0⟩, 4, 1, 0, [(1, ⟨PeerState.resolved, 0, false, true⟩)], [1], 0, 2, []⟩).isEmpty
        then DTask.download_random ⟨⟨⟨0, 0⟩, 0⟩, 4, 1, 0, [(1, ⟨PeerState.resolved, 0, false, true⟩)], [1], 0, 2, []⟩
        else ⟨⟨⟨0, 0⟩, 0⟩, 4, 1, 0, [(1, ⟨PeerState.resolved, 0, false, true⟩)], [1], 0, 2, []⟩) :=
  ⟨c2_notfound_needs_majority.1
      ⟨⟨⟨0, 0⟩, 0⟩, 4, 0, 0,
        [(0, ⟨PeerState.resolved, 0, false, true⟩), (1, ⟨PeerState.resolved, 0, false, true⟩)],
        [0, 1], 0, 2, []⟩
      [DlEvent.completedEv 0 QueryOutcome.definedNone,
        DlEvent.completedEv 1 QueryOutcome.definedNone]
      ⟨⟨⟨0, 0⟩, 0⟩, 4, 2, 0, [], [], 0, 2, []⟩
      (by decide),
   c2_notfound_needs_majority.2
      ⟨⟨⟨0, 0⟩, 0⟩, 4, 1, 0, [(1, ⟨PeerState.resolved, 0, false, true⟩)], [1], 0, 2, []⟩
      (by decide)⟩

end Tycho
